import Mathlib

/-!
Shallow embedding of the price-aggregation and arbitrage-detection engine of
the bittrade4 repository (src/arbitrage_analyzer.py and
src/unified_price_system.py), together with theorems settling the frozen
claims about it.  Timestamps and prices are modelled as rationals (the Python
code uses floats read from CSV and arbitrary-precision decimals); strings are
modelled as Lean strings.
-/

namespace Bittrade

/-- Python min on two numbers: returns the first argument on ties. -/
def qmin (a b : ℚ) : ℚ := if a ≤ b then a else b

/-- Python max on two numbers. -/
def qmax (a b : ℚ) : ℚ := if a ≤ b then b else a

/-- Python abs on a number. -/
def qabs (a : ℚ) : ℚ := if a < 0 then -a else a

/-- A row of the unified_prices CSV consumed by arbitrage_analyzer.py
(columns: timestamp, datetime, source, chain, token, price_usd).  `idx` is the
pandas row index, used for identity in window masks and pair enumeration. -/
structure Obs where
  idx : ℕ
  timestamp : ℚ
  datetime : String
  source : String
  chain : String
  token : String
  price_usd : ℚ
deriving DecidableEq

/-! ### Trade Scheduler: filter_non_overlapping_trades (arbitrage_analyzer.py) -/

/-- A candidate row as consumed by filter_non_overlapping_trades: only the
profit_per_trade, buy_timestamp and sell_timestamp columns are read. -/
structure Trade where
  profit_per_trade : ℚ
  buy_timestamp : ℚ
  sell_timestamp : ℚ
deriving DecidableEq

/-- Start of a trade's occupied time interval: min(buy_timestamp, sell_timestamp). -/
def tradeStart (t : Trade) : ℚ := qmin t.buy_timestamp t.sell_timestamp

/-- End of a trade's occupied time interval:
max(buy_timestamp, sell_timestamp) + execution_time. -/
def tradeEnd (execution_time : ℚ) (t : Trade) : ℚ :=
  qmax t.buy_timestamp t.sell_timestamp + execution_time

/-- Insert a trade into a list sorted by profit descending (stable
determinization of sort_values on profit_per_trade with ascending=False). -/
def insertProfitDesc (t : Trade) : List Trade → List Trade
  | [] => [t]
  | u :: rest =>
    if u.profit_per_trade < t.profit_per_trade then t :: u :: rest
    else u :: insertProfitDesc t rest

/-- Sort trades by profit_per_trade descending. -/
def sortByProfitDesc (l : List Trade) : List Trade := l.foldr insertProfitDesc []

/-- The scheduler loop of filter_non_overlapping_trades: walk the
profit-sorted candidates keeping `selected` and the `occupied` list of
(start_time, end_time) pairs; a candidate is accepted exactly when its
interval [trade_start, trade_end) overlaps no occupied interval
(`trade_start < end_time and trade_end > start_time` for some occupied pair
means overlap). -/
def filterGo (execution_time : ℚ) :
    List Trade → List Trade → List (ℚ × ℚ) → List Trade
  | [], selected, _ => selected
  | trade :: rest, selected, occupied =>
    if occupied.any fun p =>
        decide (tradeStart trade < p.2 ∧ tradeEnd execution_time trade > p.1)
    then filterGo execution_time rest selected occupied
    else
      filterGo execution_time rest (selected ++ [trade])
        (occupied ++ [(tradeStart trade, tradeEnd execution_time trade)])

/-- filter_non_overlapping_trades: sort by profit descending, then greedily
keep candidates whose occupied interval does not overlap any already-kept
interval (execution_time defaults to 30 in the source). -/
def filterNonOverlappingTrades (arb : List Trade) (execution_time : ℚ) :
    List Trade :=
  filterGo execution_time (sortByProfitDesc arb) [] []

/-- Trade `b`'s occupied interval overlaps trade `a`'s, in the orientation the
source checks a new candidate `b` against the occupied interval of an
already-selected `a`: start_b < end_a and end_b > start_a. -/
def tradesOverlap (e : ℚ) (a b : Trade) : Prop :=
  tradeStart b < tradeEnd e a ∧ tradeEnd e b > tradeStart a

instance (e : ℚ) (a b : Trade) : Decidable (tradesOverlap e a b) :=
  inferInstanceAs (Decidable (_ ∧ _))

/-- The scheduler algorithm as §4.6 of the spec words it: greedily accept a
candidate iff its occupied interval overlaps no already-accepted candidate's
interval; rejected candidates are never revisited. -/
def schedulerSpecGo (e : ℚ) : List Trade → List Trade → List Trade
  | [], accepted => accepted
  | t :: rest, accepted =>
    if ∃ u ∈ accepted, tradesOverlap e u t then schedulerSpecGo e rest accepted
    else schedulerSpecGo e rest (accepted ++ [t])

/-- Spec-side scheduler: sort candidates by profit descending, then greedily
accept non-overlapping candidates. -/
def schedulerSpec (candidates : List Trade) (e : ℚ) : List Trade :=
  schedulerSpecGo e (sortByProfitDesc candidates) []

/-- Scheduler scenario candidate with profit 50 occupying [0, 130) for
execution_time 30. -/
def tradeA : Trade := ⟨50, 0, 100⟩

/-- Scheduler scenario candidate with profit 40 occupying [10, 40). -/
def tradeB : Trade := ⟨40, 10, 10⟩

/-- Scheduler scenario candidate with profit 30 occupying [60, 90). -/
def tradeC : Trade := ⟨30, 60, 60⟩

/-! ### Leveraged hedge evaluator: find_leveraged_opportunity
(arbitrage_analyzer.py) -/

/-- Futures margin rate constant of find_leveraged_opportunity (10%). -/
def FUTURES_MARGIN_RATE : ℚ := 0.1

/-- Futures taker fee rate constant (0.02%). -/
def FUTURES_FEE_RATE : ℚ := 0.0002

/-- Hourly funding rate constant (0.01%). -/
def FUNDING_RATE_HOURLY : ℚ := 0.0001

/-- DEX trading fee rate constant (0.3%). -/
def DEX_FEE_RATE : ℚ := 0.003

/-- Flat DEX gas cost constant (3 USD). -/
def GAS_COST : ℚ := 3

/-- The opportunity dictionary produced by find_leveraged_opportunity. -/
structure LevOpp where
  token : String
  timestamp : ℚ
  datetime : String
  strategy : String
  buy_platform : String
  sell_platform : String
  buy_price : ℚ
  sell_price : ℚ
  convergence_price : ℚ
  price_diff_pct : ℚ
  investment_per_side : ℚ
  total_investment : ℚ
  tokens_bought : ℚ
  futures_margin : ℚ
  required_capital : ℚ
  dex_final_usdc : ℚ
  cex_final_usdc : ℚ
  total_final_usdc : ℚ
  futures_pnl : ℚ
  total_fees : ℚ
  rebalance_cost_daily : ℚ
  final_profit : ℚ
  profit_pct : ℚ
  time_diff : ℚ
  capital_efficiency : ℚ
deriving DecidableEq

/-- One step of the inner loop of find_leveraged_opportunity: evaluate the
pair (binance_row, dex_row), updating the running (best_opportunity,
max_profit) accumulator when the strictly-greater profit condition fires.
The investment notional is the hardcoded 1000 of the source. -/
def levStep (token : String) (brow : Obs) (acc : Option LevOpp × ℚ)
    (drow : Obs) : Option LevOpp × ℚ :=
  let binance_price := brow.price_usd
  let dex_price := drow.price_usd
  let time_diff := qabs (brow.timestamp - drow.timestamp)
  if dex_price < binance_price then
    let buy_price := dex_price
    let sell_price := binance_price
    let price_diff_pct := (sell_price - buy_price) / buy_price * 100
    if price_diff_pct < 0.05 then acc
    else
      let investment : ℚ := 1000
      let dex_fee := investment * DEX_FEE_RATE
      let tokens_bought := (investment - dex_fee - GAS_COST) / buy_price
      let futures_position_size := tokens_bought * sell_price
      let futures_margin := futures_position_size * FUTURES_MARGIN_RATE
      let futures_fee := futures_position_size * FUTURES_FEE_RATE
      let total_required := investment + futures_margin + futures_fee
      let convergence_price := (buy_price + sell_price) / 2
      let dex_sell_proceeds :=
        tokens_bought * convergence_price * (1 - DEX_FEE_RATE) - GAS_COST
      let futures_pnl := tokens_bought * (sell_price - convergence_price)
      let futures_close_fee := futures_position_size * FUTURES_FEE_RATE
      let funding_cost := futures_position_size * FUNDING_RATE_HOURLY
      let dex_final_usdc := dex_sell_proceeds
      let cex_final_usdc :=
        investment + futures_pnl - futures_close_fee - funding_cost
      let weekly_rebalance_cost : ℚ := 8
      let daily_rebalance_cost := weekly_rebalance_cost / 7
      let total_final := dex_final_usdc + cex_final_usdc
      let final_profit := total_final - investment * 2 - daily_rebalance_cost
      if final_profit > acc.2 then
        (some ⟨token, brow.timestamp, brow.datetime, "DEX Long + CEX Short",
          drow.chain ++ " DEX", "Binance Futures", buy_price, sell_price,
          convergence_price, price_diff_pct, investment, investment * 2,
          tokens_bought, futures_margin, total_required, dex_final_usdc,
          cex_final_usdc, total_final, futures_pnl,
          dex_fee + futures_fee + futures_close_fee + funding_cost +
            GAS_COST * 2 + daily_rebalance_cost,
          daily_rebalance_cost, final_profit,
          final_profit / (investment * 2) * 100, time_diff,
          final_profit / total_required * 100⟩, final_profit)
      else acc
  else acc

/-- The body of the outer loop of find_leveraged_opportunity: restrict the
dex side to rows within 300 seconds of the binance row's timestamp and fold
the pair evaluation over them. -/
def levAnchor (token : String) (dexData : List Obs)
    (acc : Option LevOpp × ℚ) (brow : Obs) : Option LevOpp × ℚ :=
  (dexData.filter fun d =>
    decide (brow.timestamp - 300 ≤ d.timestamp ∧
      d.timestamp ≤ brow.timestamp + 300)).foldl (levStep token brow) acc

/-- find_leveraged_opportunity: the "binance" side is filtered by
source == 'bybit', the "dex" side by source != 'binance' (so bybit rows pass
the dex-side filter too); the best strictly-positive-profit pair is
returned. -/
def findLeveragedOpportunity (windowData : List Obs) (token : String) :
    Option LevOpp :=
  let binanceData := windowData.filter fun r => decide (r.source = "bybit")
  let dexData := windowData.filter fun r => decide (r.source ≠ "binance")
  let result := binanceData.foldl (levAnchor token dexData) (none, (0 : ℚ))
  if result.2 > 0 then result.1 else none

/-- Insert an observation into a list sorted ascending by timestamp
(stable determinization of sort_values on timestamp). -/
def insertByTimestamp (r : Obs) : List Obs → List Obs
  | [] => [r]
  | u :: rest =>
    if r.timestamp ≤ u.timestamp then r :: u :: rest
    else u :: insertByTimestamp r rest

/-- Sort observations by timestamp ascending. -/
def sortByTimestamp (l : List Obs) : List Obs := l.foldr insertByTimestamp []

/-- The unique token symbols of a data set, in first-appearance order
(pandas Series.unique). -/
def uniqueTokens (rows : List Obs) : List String :=
  rows.foldl (fun acc r => if r.token ∈ acc then acc else acc ++ [r.token]) []

/-- One anchor step of analyze_leveraged_arbitrage: take the rows of the
token within [current_time, current_time + time_window]; if at least two,
run find_leveraged_opportunity and append any returned opportunity. -/
def leveragedAnchorStep (tokenData : List Obs) (token : String)
    (timeWindow : ℚ) (acc : List LevOpp) (row : Obs) : List LevOpp :=
  let windowData := tokenData.filter fun r =>
    decide (row.timestamp ≤ r.timestamp ∧
      r.timestamp ≤ row.timestamp + timeWindow)
  if 2 ≤ windowData.length then
    match findLeveragedOpportunity windowData token with
    | some opp => acc ++ [opp]
    | none => acc
  else acc

/-- Per-token pass of analyze_leveraged_arbitrage. -/
def leveragedTokenStep (df : List Obs) (timeWindow : ℚ) (acc : List LevOpp)
    (token : String) : List LevOpp :=
  let tokenData := df.filter fun r => decide (r.token = token)
  tokenData.foldl (leveragedAnchorStep tokenData token timeWindow) acc

/-- analyze_leveraged_arbitrage: sort the CSV rows by timestamp and scan each
token's anchored windows for leveraged opportunities. -/
def analyzeLeveragedArbitrage (rows : List Obs) (timeWindow : ℚ) :
    List LevOpp :=
  let df := sortByTimestamp rows
  (uniqueTokens df).foldl (leveragedTokenStep df timeWindow) []

/-- The leveraged branch of main: the CLI --investment value is parsed but
never forwarded, so this function ignores its `investment` argument exactly
as main does (analyze_leveraged_arbitrage receives only the file rows and the
window). -/
def mainLeveraged (rows : List Obs) (investment : ℚ) (timeWindow : ℚ) :
    List LevOpp :=
  analyzeLeveragedArbitrage rows timeWindow

/-! ### Full-cycle evaluator: find_profitable_cycle (arbitrage_analyzer.py) -/

/-- Flat gas cost per transaction (2 USD). -/
def GAS_COST_PER_TX : ℚ := 2

/-- DEX leg fee rate (0.3%). -/
def DEX_FEE_PCT : ℚ := 0.003

/-- CEX leg fee rate (0.1%). -/
def CEX_FEE_PCT : ℚ := 0.001

/-- The TRANSFER_COSTS dict of find_profitable_cycle, keyed by
(origin chain, destination chain).  The Python dict literal repeats the six
L2-to-L2 keys; the later occurrences (15/13/11) overwrite the earlier ones
(12/10/8), and the effective values are embedded here. -/
def TRANSFER_COSTS (origin destination : String) : Option ℚ :=
  match origin, destination with
  | "arbitrum", "reference" => some 3
  | "optimism", "reference" => some 2.5
  | "base", "reference" => some 2
  | "reference", "arbitrum" => some 8
  | "reference", "optimism" => some 7.5
  | "reference", "base" => some 6
  | "arbitrum", "optimism" => some 15
  | "arbitrum", "base" => some 13
  | "optimism", "base" => some 11
  | "optimism", "arbitrum" => some 15
  | "base", "arbitrum" => some 13
  | "base", "optimism" => some 11
  | _, _ => none

/-- MIN_TRANSFER_AMOUNTS with the .get(token, 0.1) default. -/
def MIN_TRANSFER_AMOUNTS (token : String) : ℚ :=
  match token with
  | "UNI" => 0.1
  | "WETH" => 0.001
  | "WBTC" => 0.0001
  | "LINK" => 0.1
  | "MATIC" => 1
  | _ => 0.1

/-- The cycle dictionary produced by find_profitable_cycle. -/
structure Cycle where
  token : String
  timestamp : ℚ
  datetime : String
  buy_price : ℚ
  sell_price : ℚ
  buy_source : String
  buy_chain : String
  sell_source : String
  sell_chain : String
  investment : ℚ
  tokens_bought : ℚ
  tokens_after_transfer : ℚ
  usdc_received : ℚ
  usdc_final : ℚ
  total_costs : ℚ
  token_transfer_cost : ℚ
  usdc_return_cost : ℚ
  final_profit : ℚ
  profit_pct : ℚ
  time_diff : ℚ
  needs_transfer : Bool
  transfer_type : String
deriving DecidableEq

/-- One step of the double loop of find_profitable_cycle over the ordered
pair (buy_data, sell_data).  Note that token_transfer_cost is looked up and
reported (inside total_costs) but never applied to the token amount:
tokens_after_transfer equals tokens_bought, and final_profit subtracts only
usdc_return_cost. -/
def cycleStep (token : String) (buyData : Obs) (acc : Option Cycle × ℚ)
    (sellData : Obs) : Option Cycle × ℚ :=
  if sellData.idx ≤ buyData.idx then acc
  else if buyData.source = sellData.source ∧ buyData.chain = sellData.chain
  then acc
  else
    let buy_price := buyData.price_usd
    let sell_price := sellData.price_usd
    if sell_price ≤ buy_price * 1.01 then acc
    else
      let investment : ℚ := 1000
      let buy_fee_rate :=
        if buyData.source = "binance" then CEX_FEE_PCT else DEX_FEE_PCT
      let buy_gas := GAS_COST_PER_TX
      let net_investment := investment - buy_gas
      let tokens_bought := net_investment * (1 - buy_fee_rate) / buy_price
      let min_transfer := MIN_TRANSFER_AMOUNTS token
      if tokens_bought < min_transfer then acc
      else
        let token_transfer_cost :=
          (TRANSFER_COSTS buyData.chain sellData.chain).getD 0
        let token_transfer_cost :=
          if buyData.chain = sellData.chain ∧ buyData.source = sellData.source
          then 0 else token_transfer_cost
        let tokens_after_transfer := tokens_bought
        let sell_fee_rate :=
          if sellData.source = "binance" then CEX_FEE_PCT else DEX_FEE_PCT
        let sell_gas := GAS_COST_PER_TX
        let usdc_received :=
          tokens_after_transfer * sell_price * (1 - sell_fee_rate) - sell_gas
        let usdc_return_cost :=
          (TRANSFER_COSTS sellData.chain buyData.chain).getD 0
        let usdc_return_cost :=
          if buyData.chain = sellData.chain ∧ buyData.source = sellData.source
          then 0 else usdc_return_cost
        let usdc_final := usdc_received - usdc_return_cost
        let total_costs := buy_gas + token_transfer_cost + sell_gas +
          usdc_return_cost + investment * buy_fee_rate +
          tokens_bought * buy_price * sell_fee_rate
        let final_profit := usdc_final - investment
        if final_profit > acc.2 then
          let needs_transfer :=
            decide (buyData.chain ≠ sellData.chain ∨
              buyData.source ≠ sellData.source)
          (some ⟨token, buyData.timestamp, buyData.datetime, buy_price,
            sell_price, buyData.source, buyData.chain, sellData.source,
            sellData.chain, investment, tokens_bought, tokens_after_transfer,
            usdc_received, usdc_final, total_costs, token_transfer_cost,
            usdc_return_cost, final_profit, final_profit / investment * 100,
            sellData.timestamp - buyData.timestamp, needs_transfer,
            if needs_transfer then buyData.chain ++ "→" ++ sellData.chain
            else "同一プラットフォーム"⟩, final_profit)
        else acc

/-- find_profitable_cycle: try every ordered pair of the window with
buy index strictly below sell index and differing (source, chain) identity;
keep the strictly-best positive-profit cycle. -/
def findProfitableCycle (windowData : List Obs) (token : String) :
    Option Cycle :=
  let result := windowData.foldl
    (fun acc buyData =>
      windowData.foldl (fun acc2 sellData =>
        cycleStep token buyData acc2 sellData) acc)
    (none, (0 : ℚ))
  if result.2 > 0 then result.1 else none

/-! ### Concrete inputs for the analyzer claims -/

/-- A bybit observation (UNI at 100 USD, t = 0). -/
def bybitObsA : Obs :=
  ⟨0, 0, "2025-07-28 00:00:00", "bybit", "reference", "UNI", 100⟩

/-- A second bybit observation (UNI at 102 USD, t = 1). -/
def bybitObsB : Obs :=
  ⟨1, 1, "2025-07-28 00:00:01", "bybit", "reference", "UNI", 102⟩

/-- Full-cycle failing input, buy side: a Uniswap observation on arbitrum at
100 USD. -/
def cycleBuyObs : Obs :=
  ⟨0, 0, "2025-07-28 00:00:00", "uniswap_v3", "arbitrum", "UNI", 100⟩

/-- Full-cycle failing input, sell side: a Binance observation at 101.9 USD,
10 seconds later. -/
def cycleSellObs : Obs :=
  ⟨1, 10, "2025-07-28 00:00:10", "binance", "reference", "UNI", 101.9⟩

/-- Input rows for the investment-parameter claim: one on-chain and one bybit
observation of UNI one second apart with a 2% spread. -/
def investRows : List Obs :=
  [⟨0, 0, "2025-07-28 00:00:00", "uniswap_v3", "arbitrum", "UNI", 100⟩,
   ⟨1, 1, "2025-07-28 00:00:01", "bybit", "reference", "UNI", 102⟩]

/-! ### Simple spread scan: the per-token body of load_and_analyze_arbitrage
(arbitrage_analyzer.py) -/

/-- The candidate dictionary appended by the spread scan.  The source
deduplication key is the string f-string of token, min timestamp and max
timestamp; it is modelled by the token field together with the two timestamp
key fields. -/
structure Cand where
  arb_key_tmin : ℚ
  arb_key_tmax : ℚ
  timestamp : ℚ
  datetime : String
  token : String
  min_price : ℚ
  max_price : ℚ
  spread_usd : ℚ
  spread_pct : ℚ
  time_diff : ℚ
  buy_source : String
  buy_chain : String
  sell_source : String
  sell_chain : String
  buy_timestamp : ℚ
  sell_timestamp : ℚ
deriving DecidableEq

/-- The candidate built from anchor `row` and window row `other`: the
lower-priced side is designated as the buy side (ties go to `other`,
unreachable under the spread threshold). -/
def mkCand (token : String) (row other : Obs) : Cand :=
  let min_price := qmin row.price_usd other.price_usd
  let max_price := qmax row.price_usd other.price_usd
  let buyData := if row.price_usd < other.price_usd then row else other
  let sellData := if row.price_usd < other.price_usd then other else row
  ⟨qmin row.timestamp other.timestamp, qmax row.timestamp other.timestamp,
   row.timestamp, row.datetime, token, min_price, max_price,
   max_price - min_price, (max_price - min_price) / min_price * 100,
   qabs (row.timestamp - other.timestamp),
   buyData.source, buyData.chain, sellData.source, sellData.chain,
   buyData.timestamp, sellData.timestamp⟩

/-- Inner-loop body of the spread scan: record the pair when the lower price
is positive, the spread is at least the 0.05% threshold, and no candidate
with the same (token, min ts, max ts) key was already recorded. -/
def considerOther (token : String) (row : Obs) (acc : List Cand)
    (other : Obs) : List Cand :=
  let min_price := qmin row.price_usd other.price_usd
  let max_price := qmax row.price_usd other.price_usd
  if 0 < min_price then
    if 0.05 ≤ (max_price - min_price) / min_price * 100 then
      if acc.any fun c => decide (c.token = token ∧
          c.arb_key_tmin = qmin row.timestamp other.timestamp ∧
          c.arb_key_tmax = qmax row.timestamp other.timestamp)
      then acc
      else acc ++ [mkCand token row other]
    else acc
  else acc

/-- The window mask of the spread scan: timestamps within plus or minus the
window around the anchor, excluding the anchor's own row index. -/
def windowMask (w : ℚ) (row other : Obs) : Bool :=
  decide (row.timestamp - w ≤ other.timestamp ∧
    other.timestamp ≤ row.timestamp + w ∧ other.idx ≠ row.idx)

/-- One anchor step of the spread scan: compare the anchor against every
other observation of the token in its window. -/
def spreadAnchor (w : ℚ) (tokenData : List Obs) (token : String)
    (acc : List Cand) (row : Obs) : List Cand :=
  (tokenData.filter (windowMask w row)).foldl (considerOther token row) acc

/-- The per-token spread scan of load_and_analyze_arbitrage: every anchor in
row order, deduplicated by the (token, min ts, max ts) key. -/
def spreadScan (w : ℚ) (tokenData : List Obs) (token : String) : List Cand :=
  tokenData.foldl (spreadAnchor w tokenData token) []

/-- Key-collision input: three observations where rows 1 and 2 share the
timestamp 20, so the pairs (0,1) and (0,2) share the dedup key (10, 20). -/
def collideRows : List Obs :=
  [⟨0, 10, "d0", "binance", "reference", "UNI", 100⟩,
   ⟨1, 20, "d1", "uniswap_v3", "arbitrum", "UNI", 102⟩,
   ⟨2, 20, "d2", "bybit", "reference", "UNI", 110⟩]

/-- Spread-scan scenario observation at price 100, t = 10. -/
def scenarioObs1 : Obs := ⟨0, 10, "d0", "binance", "reference", "UNI", 100⟩

/-- Spread-scan scenario observation at price 100.06, t = 20. -/
def scenarioObs2 : Obs := ⟨1, 20, "d1", "uniswap_v3", "arbitrum", "UNI", 100.06⟩

/-- Spread-scan scenario observation at price 103, t = 25. -/
def scenarioObs3 : Obs := ⟨2, 25, "d2", "bybit", "reference", "UNI", 103⟩

/-- The three-observation spread-scan scenario (prices 100, 100.06, 103). -/
def scenarioRows : List Obs := [scenarioObs1, scenarioObs2, scenarioObs3]

/-- The conditions under which the spread scan records the pair
(row, other): positive lower price and spread at or above the 0.05%
threshold. -/
def pairQualifies (row other : Obs) : Prop :=
  0 < qmin row.price_usd other.price_usd ∧
  0.05 ≤ (qmax row.price_usd other.price_usd -
    qmin row.price_usd other.price_usd) /
    qmin row.price_usd other.price_usd * 100

instance (row other : Obs) : Decidable (pairQualifies row other) :=
  inferInstanceAs (Decidable (_ ∧ _))

/-- Some candidate in the accumulator carries the dedup-key timestamps
(k1, k2). -/
def keyMem (k1 k2 : ℚ) (acc : List Cand) : Prop :=
  ∃ c ∈ acc, c.arb_key_tmin = k1 ∧ c.arb_key_tmax = k2

/-- Invariant of the spread-scan accumulator: every candidate carries the
scanned token, and dedup keys are pairwise distinct. -/
def scanInv (token : String) (acc : List Cand) : Prop :=
  (∀ c ∈ acc, c.token = token) ∧
  acc.Pairwise fun c d =>
    c.arb_key_tmin ≠ d.arb_key_tmin ∨ c.arb_key_tmax ≠ d.arb_key_tmax

/-! ### Pool Price Normalizer, adapters and Aggregator
(unified_price_system.py) -/

/-- The PriceData dataclass of unified_price_system.py.  For Uniswap
observations the source stores the bid in market_cap, the ask in volume_24h
and the pool fee rate in price_change_24h. -/
structure PriceData where
  source : String
  chain : String
  token : String
  price : ℚ
  timestamp : ℚ
  market_cap : Option ℚ
  volume_24h : Option ℚ
  price_change_24h : Option ℚ
deriving DecidableEq

/-- Python str.lower(): lowercase every character of the string. -/
def pyLower (s : String) : String := ⟨s.data.map Char.toLower⟩

/-- Python string comparison: lexicographic on the character sequences. -/
def pyStrLt (s t : String) : Prop := List.Lex (fun a b => a < b) s.data t.data

instance (s t : String) : Decidable (pyStrLt s t) :=
  inferInstanceAs (Decidable (List.Lex _ _ _))

/-- _determine_token_order: lowercase both contract addresses and put the
lexicographically smaller one in the token0 slot; the flag records whether
the token is token0. -/
def determineTokenOrder (tokenAddress usdcAddress : String) :
    Bool × String × String :=
  let token_lower := pyLower tokenAddress
  let usdc_lower := pyLower usdcAddress
  if pyStrLt token_lower usdc_lower then (true, tokenAddress, usdcAddress)
  else (false, usdcAddress, tokenAddress)

/-- The derived USD price when the token occupies the lower-address slot
(token = token0): price * 10^(tokenDecimals - usdcDecimals), where price is
sqrt_price_decimal squared and sqrt_price_decimal = sqrtPriceX96 / 2^96. -/
def priceWhenToken0 (sqrtPriceX96 : ℕ) (tokenDecimals usdcDecimals : ℕ) : ℚ :=
  ((sqrtPriceX96 : ℚ) / 2 ^ 96 * ((sqrtPriceX96 : ℚ) / 2 ^ 96)) *
    (10 : ℚ) ^ ((tokenDecimals : ℤ) - (usdcDecimals : ℤ))

/-- The derived USD price when the token occupies the higher-address slot
(token = token1): (1 / price) * 10^(tokenDecimals - usdcDecimals). -/
def priceWhenToken1 (sqrtPriceX96 : ℕ) (tokenDecimals usdcDecimals : ℕ) : ℚ :=
  1 / ((sqrtPriceX96 : ℚ) / 2 ^ 96 * ((sqrtPriceX96 : ℚ) / 2 ^ 96)) *
    (10 : ℚ) ^ ((tokenDecimals : ℤ) - (usdcDecimals : ℤ))

/-- The lower sanity bound Decimal(10 ** -10) of fetch_uniswap_price:
10 ** -10 is a Python float, and Decimal of that float is the binary double
nearest to 1e-10, namely 7737125245533627 / 2^86 (slightly above the exact
1e-10).  The upper bound Decimal(10 ** 10) is exact. -/
def PY_FLOAT_1E_MINUS_10 : ℚ := 7737125245533627 / 2 ^ 86

/-- The pure price-derivation core of fetch_uniswap_price, taking the
resolved pool fee tier and the slot0 sqrtPriceX96 value as inputs: derive
the USD price from the slot ordering, discard it when outside the
[1e-10, 1e10] sanity bounds, and otherwise emit the observation with the
synthetic bid/ask built from the pool fee. -/
def fetchUniswapPriceCore (chainName tokenSymbol : String)
    (tokenAddress usdcAddress : String) (poolFee : ℕ) (sqrtPriceX96 : ℕ)
    (tokenDecimals usdcDecimals : ℕ) (now : ℚ) : Option PriceData :=
  let token_is_token0 := (determineTokenOrder tokenAddress usdcAddress).1
  let final_price :=
    if token_is_token0 then
      priceWhenToken0 sqrtPriceX96 tokenDecimals usdcDecimals
    else priceWhenToken1 sqrtPriceX96 tokenDecimals usdcDecimals
  if final_price > 10 ^ 10 ∨ final_price < PY_FLOAT_1E_MINUS_10 then none
  else
    let pool_fee_decimal : ℚ := (poolFee : ℚ) / 1000000
    let bid_price := final_price * (1 - pool_fee_decimal)
    let ask_price := final_price * (1 + pool_fee_decimal)
    some ⟨"uniswap_v3", chainName, tokenSymbol, final_price, now,
      some bid_price, some ask_price, some pool_fee_decimal⟩

/-- Insert one observation into the token-grouped association list of
get_all_prices, preserving dict insertion order and appending within a
token's list. -/
def insertGrouped : List (String × List PriceData) → PriceData →
    List (String × List PriceData)
  | [], pd => [(pd.token, [pd])]
  | (t, l) :: rest, pd =>
    if t = pd.token then (t, l ++ [pd]) :: rest
    else (t, l) :: insertGrouped rest pd

/-- Group a list of observations by token (the dict-building loop of
get_all_prices). -/
def groupByToken (prices : List PriceData) : List (String × List PriceData) :=
  prices.foldl insertGrouped []

/-- get_all_prices: concatenate the CEX, DEX and next-generation DEX results
and group them by token. -/
def getAllPrices (cexPrices dexPrices nextgenPrices : List PriceData) :
    List (String × List PriceData) :=
  groupByToken (cexPrices ++ dexPrices ++ nextgenPrices)

/-- Look one token's observation list up in the grouped output. -/
def lookupGrouped : List (String × List PriceData) → String → List PriceData
  | [], _ => []
  | (t, l) :: rest, token => if t = token then l else lookupGrouped rest token

/-- One record of the Binance bulk ticker response; a missing or malformed
field is modelled as none. -/
structure Ticker where
  symbol : Option String
  price : Option ℚ
deriving DecidableEq

/-- The reverse symbol-to-token mapping built from cex_symbols['binance']. -/
def binanceSymbolToToken (symbol : String) : Option String :=
  match symbol with
  | "ETHUSDC" => some "WETH"
  | "BTCUSDC" => some "WBTC"
  | "LINKUSDC" => some "LINK"
  | "UNIUSDC" => some "UNI"
  | "MATICUSDC" => some "MATIC"
  | "BNBUSDC" => some "BNB"
  | "AVAXUSDC" => some "AVAX"
  | "SOLUSDC" => some "SOL"
  | "ADAUSDC" => some "ADA"
  | "DOTUSDC" => some "DOT"
  | "DOGEUSDC" => some "DOGE"
  | "LTCUSDC" => some "LTC"
  | "PEPEUSDC" => some "PEPE"
  | "AAVEUSDC" => some "AAVE"
  | "CRVUSDC" => some "CRV"
  | "COMPUSDC" => some "COMP"
  | "MKRUSDC" => some "MKR"
  | "SUSHIUSDC" => some "SUSHI"
  | "OPUSDC" => some "OP"
  | "ARBUSDC" => some "ARB"
  | _ => none

/-- The token symbols of self.tokens in insertion order. -/
def tokensList : List String :=
  ["WETH", "WBTC", "LINK", "UNI", "MATIC", "BNB", "AVAX", "SOL", "ADA",
   "DOT", "DOGE", "LTC", "PEPE", "AAVE", "CRV", "COMP", "MKR", "SUSHI",
   "OP", "ARB"]

/-- The bybit symbols: the values of cex_symbols['bybit'] in order. -/
def bybitSymbols : List String :=
  ["ETHUSDT", "BTCUSDT", "LINKUSDT", "UNIUSDT", "MATICUSDT", "BNBUSDT",
   "AVAXUSDT", "SOLUSDT", "ADAUSDT", "DOTUSDT", "DOGEUSDT", "LTCUSDT",
   "PEPEUSDT", "AAVEUSDT", "CRVUSDT", "COMPUSDT", "MKRUSDT", "SUSHIUSDT",
   "OPUSDT", "ARBUSDT"]

/-- The reverse symbol-to-token mapping built from cex_symbols['bybit']. -/
def bybitSymbolToToken (symbol : String) : Option String :=
  match symbol with
  | "ETHUSDT" => some "WETH"
  | "BTCUSDT" => some "WBTC"
  | "LINKUSDT" => some "LINK"
  | "UNIUSDT" => some "UNI"
  | "MATICUSDT" => some "MATIC"
  | "BNBUSDT" => some "BNB"
  | "AVAXUSDT" => some "AVAX"
  | "SOLUSDT" => some "SOL"
  | "ADAUSDT" => some "ADA"
  | "DOTUSDT" => some "DOT"
  | "DOGEUSDT" => some "DOGE"
  | "LTCUSDT" => some "LTC"
  | "PEPEUSDT" => some "PEPE"
  | "AAVEUSDT" => some "AAVE"
  | "CRVUSDT" => some "CRV"
  | "COMPUSDT" => some "COMP"
  | "MKRUSDT" => some "MKR"
  | "SUSHIUSDT" => some "SUSHI"
  | "OPUSDT" => some "OP"
  | "ARBUSDT" => some "ARB"
  | _ => none

/-- A Binance spot observation as the reference-chain PriceData. -/
def mkBinancePriceData (token : String) (price now : ℚ) : PriceData :=
  ⟨"binance", "reference", token, price, now, none, none, none⟩

/-- A Bybit spot observation as the reference-chain PriceData. -/
def mkBybitPriceData (token : String) (price now : ℚ) : PriceData :=
  ⟨"bybit", "reference", token, price, now, none, none, none⟩

/-- The parse loop of the bulk Binance fetch: ticker['symbol'] is indexed
unconditionally and Decimal(ticker['price']) for every mapped symbol, so a
missing or malformed field raises and aborts the whole parse (the error
result), which the caller catches as a failed attempt; unmapped symbols are
skipped. -/
def parseBinanceBatch (now : ℚ) : List Ticker → Except Unit (List PriceData)
  | [] => .ok []
  | ticker :: rest =>
    match ticker.symbol with
    | none => .error ()
    | some symbol =>
      match binanceSymbolToToken symbol with
      | none => parseBinanceBatch now rest
      | some token =>
        match ticker.price with
        | none => .error ()
        | some p =>
          match parseBinanceBatch now rest with
          | .ok results => .ok (mkBinancePriceData token p now :: results)
          | .error e => .error e

instance {ε α : Type} [DecidableEq ε] [DecidableEq α] :
    DecidableEq (Except ε α) := fun a b =>
  match a, b with
  | .error e, .error f =>
    if h : e = f then isTrue (by rw [h])
    else isFalse (fun hc => h (by injection hc))
  | .error _, .ok _ => isFalse (fun hc => Except.noConfusion hc)
  | .ok _, .error _ => isFalse (fun hc => Except.noConfusion hc)
  | .ok x, .ok y =>
    if h : x = y then isTrue (by rw [h])
    else isFalse (fun hc => h (by injection hc))

/-- Outcome of one bulk Binance fetch attempt: a 200 response carrying its
JSON body, a 429 rate limit, a timeout, another exception, or another HTTP
status. -/
inductive Outcome where
  | ok (batch : List Ticker)
  | rateLimited
  | timeout
  | failed
  | otherStatus
deriving DecidableEq

/-- _fetch_binance_individual: only the first five tokens are tried, each
through a per-token fetch modelled by the `indiv` oracle (none when that
fetch fails or rate-limits). -/
def binanceIndividualFallback (indiv : String → Option ℚ) (now : ℚ) :
    List PriceData :=
  (tokensList.take 5).filterMap fun token =>
    (indiv token).map fun p => mkBinancePriceData token p now

/-- The retry loop of fetch_all_binance_prices over the attempt indices: the
first 200 response whose batch parses in full returns the parsed prices;
every other outcome (rate limit with exponential backoff, timeout,
exception — including a parse error — or other status) consumes the
attempt; after the budget is exhausted, fall back to individual fetches. -/
def binanceGo (attempts : ℕ → Outcome) (indiv : String → Option ℚ)
    (now : ℚ) : List ℕ → List PriceData
  | [] => binanceIndividualFallback indiv now
  | i :: rest =>
    match attempts i with
    | .ok batch =>
      match parseBinanceBatch now batch with
      | .ok results => results
      | .error _ => binanceGo attempts indiv now rest
    | _ => binanceGo attempts indiv now rest

/-- fetch_all_binance_prices with its three-attempt retry budget. -/
def fetchAllBinancePrices (attempts : ℕ → Outcome)
    (indiv : String → Option ℚ) (now : ℚ) : List PriceData :=
  binanceGo attempts indiv now [0, 1, 2]

/-- The first ticker of a successful Bybit per-symbol response: the symbol it
reports and its lastPrice (none when malformed). -/
structure BybitTicker where
  symbol : String
  lastPrice : Option ℚ
deriving DecidableEq

/-- fetch_single_bybit inside fetch_all_bybit_prices: a transport error, bad
status, bad retCode or empty result list is a none response; otherwise the
first ticker must echo the requested symbol, the symbol must reverse-map to
a token, and lastPrice must parse.  Any failure affects only this symbol. -/
def bybitFetchOne (resp : String → Option BybitTicker) (now : ℚ)
    (symbol : String) : Option PriceData :=
  match resp symbol with
  | none => none
  | some t =>
    if t.symbol = symbol then
      match bybitSymbolToToken symbol with
      | some token => t.lastPrice.map fun p => mkBybitPriceData token p now
      | none => none
    else none

/-- fetch_all_bybit_prices: per-symbol fetches from the start, collecting
every successful result. -/
def fetchAllBybitPrices (resp : String → Option BybitTicker) (now : ℚ) :
    List PriceData :=
  bybitSymbols.filterMap (bybitFetchOne resp now)

/-- A well-formed Binance UNIUSDC ticker at price 10. -/
def goodUNITicker : Ticker := ⟨some "UNIUSDC", some 10⟩

/-- A ticker with a missing symbol field. -/
def malformedTicker : Ticker := ⟨none, none⟩

/-- A well-formed Binance UNIUSDC ticker at the out-of-bounds price 10^11. -/
def hugeUNITicker : Ticker := ⟨some "UNIUSDC", some (10 ^ 11)⟩

/-- The observation emitted by the pool-normalizer witness input. -/
def uniswapWitnessPD : PriceData :=
  ⟨"uniswap_v3", "ethereum", "WBTC", 100, 0, some 99.7, some 100.3,
   some 0.003⟩

/-- The observation emitted by the bounds witness input (fee tier 500). -/
def boundsWitnessPD : PriceData :=
  ⟨"uniswap_v3", "ethereum", "WBTC", 100, 0, some 99.95, some 100.05,
   some 0.0005⟩

/-- Individual-fetch oracle succeeding only for WETH at price 5. -/
def witnessIndiv : String → Option ℚ :=
  fun token => if token = "WETH" then some 5 else none

/-- Bybit response oracle succeeding only for ETHUSDT at price 7. -/
def witnessBybitResp : String → Option BybitTicker :=
  fun symbol => if symbol = "ETHUSDT" then some ⟨"ETHUSDT", some 7⟩ else none

end Bittrade

namespace Bittrade

/-! ### Theorems -/

theorem qmin_eq_min (a b : ℚ) : qmin a b = min a b := (min_def a b).symm

theorem qmax_eq_max (a b : ℚ) : qmax a b = max a b := by
  rw [qmax, max_def]

theorem filterGo_eq_specGo (e : ℚ) (l : List Trade) : ∀ acc : List Trade,
    filterGo e l acc (acc.map fun t => (tradeStart t, tradeEnd e t)) =
      schedulerSpecGo e l acc := by
  induction l with
  | nil => intro acc; rfl
  | cons t rest ih =>
    intro acc
    by_cases h : ∃ u ∈ acc, tradesOverlap e u t
    · have hany : ((acc.map fun u => (tradeStart u, tradeEnd e u)).any fun p =>
          decide (tradeStart t < p.2 ∧ tradeEnd e t > p.1)) = true := by
        obtain ⟨u, hu, hov⟩ := h
        rw [List.any_eq_true]
        exact ⟨(tradeStart u, tradeEnd e u), List.mem_map_of_mem _ hu,
          decide_eq_true hov⟩
      simp only [filterGo, schedulerSpecGo, hany, if_pos h, if_true]
      exact ih acc
    · have hany : ((acc.map fun u => (tradeStart u, tradeEnd e u)).any fun p =>
          decide (tradeStart t < p.2 ∧ tradeEnd e t > p.1)) = false := by
        rw [List.any_eq_false]
        intro p hp
        rw [List.mem_map] at hp
        obtain ⟨u, hu, rfl⟩ := hp
        simp only [decide_eq_true_iff]
        exact fun hov => h ⟨u, hu, hov⟩
      have hmap : (acc.map fun u => (tradeStart u, tradeEnd e u)) ++
          [(tradeStart t, tradeEnd e t)] =
          (acc ++ [t]).map fun u => (tradeStart u, tradeEnd e u) := by
        rw [List.map_append, List.map_singleton]
      simp only [filterGo, schedulerSpecGo, hany, if_neg h, Bool.false_eq_true,
        if_false, hmap]
      exact ih (acc ++ [t])

/-- C5: the Trade Scheduler's output equals the result of sorting candidates
by profit descending and greedily accepting each candidate exactly when its
occupied interval [min(buy_ts, sell_ts), max(buy_ts, sell_ts) +
execution_duration) overlaps no already-accepted interval, with no
backtracking; and in the 50/40/30 scenario where the 50-profit interval
overlaps both others while the 40- and 30-profit intervals are mutually
disjoint, only the 50-profit candidate is selected. -/
theorem filterNonOverlappingTrades_greedy_spec :
    (∀ arb e, filterNonOverlappingTrades arb e = schedulerSpec arb e) ∧
    filterNonOverlappingTrades [tradeA, tradeB, tradeC] 30 = [tradeA] ∧
    ¬ tradesOverlap 30 tradeB tradeC := by
  refine ⟨fun arb e => ?_,
    by norm_num [filterNonOverlappingTrades, filterGo, sortByProfitDesc,
      insertProfitDesc, tradeA, tradeB, tradeC, tradeStart, tradeEnd, qmin, qmax],
    by norm_num [tradesOverlap, tradeStart, tradeEnd, tradeB, tradeC, qmin, qmax]⟩
  have h := filterGo_eq_specGo e (sortByProfitDesc arb) []
  simpa [filterNonOverlappingTrades, schedulerSpec] using h

theorem specGo_pairwise (e : ℚ) (l : List Trade) : ∀ acc : List Trade,
    acc.Pairwise (fun a b => ¬ tradesOverlap e a b) →
    (schedulerSpecGo e l acc).Pairwise fun a b => ¬ tradesOverlap e a b := by
  induction l with
  | nil => intro acc hacc; exact hacc
  | cons t rest ih =>
    intro acc hacc
    unfold schedulerSpecGo
    split
    · exact ih acc hacc
    · rename_i h
      refine ih (acc ++ [t]) ?_
      rw [List.pairwise_append]
      refine ⟨hacc, List.pairwise_singleton _ _, ?_⟩
      intro a ha b hb
      rw [List.mem_singleton] at hb
      subst hb
      exact fun hov => h ⟨a, ha, hov⟩

/-- C6: for every candidate set and execution duration, the occupied
intervals of the trades selected by filter_non_overlapping_trades are
pairwise disjoint (no two selected trades' intervals overlap). -/
theorem filterNonOverlappingTrades_pairwise_disjoint :
    ∀ arb e, (filterNonOverlappingTrades arb e).Pairwise
      fun a b => ¬ tradesOverlap e a b := by
  intro arb e
  have heq := filterGo_eq_specGo e (sortByProfitDesc arb) []
  simp only [List.map_nil] at heq
  rw [filterNonOverlappingTrades, heq]
  exact specGo_pairwise e _ [] List.Pairwise.nil

unseal Rat.add Rat.mul Rat.sub Rat.inv Rat.ofScientific in
/-- C3: evaluating find_leveraged_opportunity on a window consisting of two
bybit observations (prices 100 and 102) returns an opportunity whose buy side
is the bybit derivatives observation (labelled "reference DEX"), because the
dex-side filter excludes source 'binance' rather than 'bybit'; the claim that
the buy side is always an on-chain venue observation fails on the code. -/
theorem findLeveragedOpportunity_buy_side_bybit :
    (findLeveragedOpportunity [bybitObsA, bybitObsB] "UNI").map
      (fun o => (o.buy_platform, o.sell_platform, o.buy_price, o.sell_price)) =
    some ("reference DEX", "Binance Futures", 100, 102) := by
  decide

unseal Rat.add Rat.mul Rat.sub Rat.inv Rat.ofScientific in
/-- C1: on a window with a Uniswap-arbitrum buy at 100 and a Binance sell at
101.9 (a 1.9% raw spread, above the 1% floor), find_profitable_cycle returns
a cycle whose final_profit is 2.897202886: the 8 USD stable-asset return cost
is subtracted but the 3 USD outbound token-transfer cost, although looked up
and reported in the cycle's cost fields, is not; subtracting it as the claim
requires would make the profit negative, so per the claim no cycle should
have been returned. -/
theorem findProfitableCycle_token_transfer_cost_not_subtracted :
    (findProfitableCycle [cycleBuyObs, cycleSellObs] "UNI").map
      (fun c => (c.final_profit, c.token_transfer_cost, c.usdc_return_cost)) =
      some (2.897202886, 3, 8) ∧ (2.897202886 : ℚ) - 3 < 0 := by
  decide

theorem levStep_investment (token : String) (brow drow : Obs)
    (acc : Option LevOpp × ℚ)
    (h : ∀ o, acc.1 = some o → o.investment_per_side = 1000) :
    ∀ o, (levStep token brow acc drow).1 = some o →
      o.investment_per_side = 1000 := by
  intro o ho
  unfold levStep at ho
  simp only at ho
  split_ifs at ho
  all_goals first
    | exact h o ho
    | (rw [Option.some_inj] at ho; rw [← ho])

theorem levFold_investment (token : String) (brow : Obs) (l : List Obs) :
    ∀ acc : Option LevOpp × ℚ,
      (∀ o, acc.1 = some o → o.investment_per_side = 1000) →
      ∀ o, (l.foldl (levStep token brow) acc).1 = some o →
        o.investment_per_side = 1000 := by
  induction l with
  | nil => intro acc h; exact h
  | cons d rest ih =>
    intro acc h
    exact ih (levStep token brow acc d) (levStep_investment token brow d acc h)

theorem levAnchorFold_investment (token : String) (dexData : List Obs)
    (l : List Obs) :
    ∀ acc : Option LevOpp × ℚ,
      (∀ o, acc.1 = some o → o.investment_per_side = 1000) →
      ∀ o, (l.foldl (levAnchor token dexData) acc).1 = some o →
        o.investment_per_side = 1000 := by
  induction l with
  | nil => intro acc h; exact h
  | cons brow rest ih =>
    intro acc h
    exact ih (levAnchor token dexData acc brow)
      (levFold_investment token brow _ acc h)

theorem findLeveragedOpportunity_investment (windowData : List Obs)
    (token : String) :
    ∀ o, findLeveragedOpportunity windowData token = some o →
      o.investment_per_side = 1000 := by
  intro o ho
  unfold findLeveragedOpportunity at ho
  simp only at ho
  split_ifs at ho
  all_goals
    exact levAnchorFold_investment token _ _ (none, (0 : ℚ))
      (fun o h => Option.noConfusion h) o ho

theorem leveragedAnchorStep_investment (tokenData : List Obs) (token : String)
    (timeWindow : ℚ) (acc : List LevOpp) (row : Obs)
    (h : ∀ o ∈ acc, o.investment_per_side = 1000) :
    ∀ o ∈ leveragedAnchorStep tokenData token timeWindow acc row,
      o.investment_per_side = 1000 := by
  intro o ho
  unfold leveragedAnchorStep at ho
  simp only at ho
  split_ifs at ho
  · revert ho
    split
    · rename_i opp hopp
      intro ho
      rcases List.mem_append.mp ho with h1 | h1
      · exact h o h1
      · rw [List.mem_singleton] at h1
        subst h1
        exact findLeveragedOpportunity_investment _ _ o hopp
    · intro ho; exact h o ho
  · exact h o ho

theorem leveragedTokenFold_investment (tokenData : List Obs) (token : String)
    (timeWindow : ℚ) (l : List Obs) :
    ∀ acc : List LevOpp, (∀ o ∈ acc, o.investment_per_side = 1000) →
      ∀ o ∈ l.foldl (leveragedAnchorStep tokenData token timeWindow) acc,
        o.investment_per_side = 1000 := by
  induction l with
  | nil => intro acc h; exact h
  | cons row rest ih =>
    intro acc h
    exact ih _ (leveragedAnchorStep_investment tokenData token timeWindow
      acc row h)

theorem leveragedTokensFold_investment (df : List Obs) (timeWindow : ℚ)
    (toks : List String) :
    ∀ acc : List LevOpp, (∀ o ∈ acc, o.investment_per_side = 1000) →
      ∀ o ∈ toks.foldl (leveragedTokenStep df timeWindow) acc,
        o.investment_per_side = 1000 := by
  induction toks with
  | nil => intro acc h; exact h
  | cons tok rest ih =>
    intro acc h
    refine ih _ ?_
    unfold leveragedTokenStep
    exact leveragedTokenFold_investment _ tok timeWindow _ acc h

theorem analyzeLeveragedArbitrage_investment (rows : List Obs)
    (timeWindow : ℚ) :
    ∀ o ∈ analyzeLeveragedArbitrage rows timeWindow,
      o.investment_per_side = 1000 := by
  unfold analyzeLeveragedArbitrage
  exact leveragedTokensFold_investment _ timeWindow _ [] (by simp)

/-- C9 (amended): the leveraged entry point ignores the caller-supplied
investment notional — its output is identical for every supplied value, and
every emitted opportunity records the hardcoded 1000 USD per side. -/
theorem mainLeveraged_ignores_investment :
    ∀ rows investment timeWindow,
      mainLeveraged rows investment timeWindow =
        mainLeveraged rows 1000 timeWindow ∧
      (mainLeveraged rows investment timeWindow).all
        (fun o => decide (o.investment_per_side = 1000)) = true := by
  intro rows investment timeWindow
  refine ⟨rfl, ?_⟩
  rw [List.all_eq_true]
  intro o ho
  exact decide_eq_true
    (analyzeLeveragedArbitrage_investment rows timeWindow o ho)

unseal Rat.add Rat.mul Rat.sub Rat.inv Rat.ofScientific in
/-- C9 counterexample: with the CLI investment set to 500 on a concrete
two-row input, the single emitted opportunity records investment_per_side
1000, and the output is identical to the run with investment 1000. -/
theorem mainLeveraged_ignores_investment_counterexample :
    ((mainLeveraged investRows 500 30).map fun o => o.investment_per_side) =
      [1000] ∧
    mainLeveraged investRows 500 30 = mainLeveraged investRows 1000 30 ∧
    (500 : ℚ) ≠ 1000 := by
  refine ⟨by decide, rfl, by norm_num⟩

/-! ### Spread-scan lemmas and claim theorems -/

theorem qmin_comm (a b : ℚ) : qmin a b = qmin b a := by
  rw [qmin_eq_min, qmin_eq_min, min_comm]

theorem qmax_comm (a b : ℚ) : qmax a b = qmax b a := by
  rw [qmax_eq_max, qmax_eq_max, max_comm]

theorem qabs_eq_abs (x : ℚ) : qabs x = |x| := by
  rw [qabs]
  rcases lt_or_le x 0 with h | h
  · rw [if_pos h, abs_of_neg h]
  · rw [if_neg (not_lt.mpr h), abs_of_nonneg h]

theorem foldl_pred_mono {α β : Type} (P : β → Prop) (f : β → α → β)
    (mono : ∀ acc x, P acc → P (f acc x)) :
    ∀ (l : List α) (acc : β), P acc → P (l.foldl f acc) := by
  intro l
  induction l with
  | nil => intro acc h; exact h
  | cons x rest ih => intro acc h; exact ih (f acc x) (mono acc x h)

theorem foldl_pred_of_mem {α β : Type} (P : β → Prop) (f : β → α → β)
    (z : α) (mono : ∀ acc x, P acc → P (f acc x))
    (est : ∀ acc, P (f acc z)) :
    ∀ (l : List α) (acc : β), z ∈ l → P (l.foldl f acc) := by
  intro l
  induction l with
  | nil => intro acc h; exact absurd h (List.not_mem_nil z)
  | cons y rest ih =>
    intro acc hz
    rcases List.mem_cons.mp hz with h | h
    · subst h
      exact foldl_pred_mono P f mono rest (f acc z) (est acc)
    · exact ih (f acc y) h

theorem considerOther_sub (token : String) (row : Obs) (acc : List Cand)
    (other : Obs) :
    ∀ c ∈ considerOther token row acc other,
      c ∈ acc ∨ (c = mkCand token row other ∧ pairQualifies row other) := by
  intro c hc
  unfold considerOther at hc
  simp only at hc
  split_ifs at hc with h1 h2 h3
  all_goals first
    | exact Or.inl hc
    | exact (List.mem_append.mp hc).elim Or.inl
        (fun h => Or.inr ⟨List.mem_singleton.mp h, h1, h2⟩)

theorem considerFold_sub (token : String) (row : Obs) (others : List Obs) :
    ∀ acc, ∀ c ∈ others.foldl (considerOther token row) acc,
      c ∈ acc ∨ ∃ other ∈ others,
        c = mkCand token row other ∧ pairQualifies row other := by
  induction others with
  | nil => intro acc c hc; exact Or.inl hc
  | cons o rest ih =>
    intro acc c hc
    rcases ih (considerOther token row acc o) c hc with h | h
    · rcases considerOther_sub token row acc o c h with h2 | h2
      · exact Or.inl h2
      · exact Or.inr ⟨o, List.mem_cons_self o rest, h2⟩
    · obtain ⟨other, ho, h2⟩ := h
      exact Or.inr ⟨other, List.mem_cons_of_mem o ho, h2⟩

theorem spreadScan_sub (w : ℚ) (rows : List Obs) (token : String) :
    ∀ c ∈ spreadScan w rows token,
      ∃ x ∈ rows, ∃ y ∈ rows, windowMask w x y = true ∧
        c = mkCand token x y ∧ pairQualifies x y := by
  have anchor : ∀ (x : Obs) (acc : List Cand), ∀ c ∈ spreadAnchor w rows token acc x,
      c ∈ acc ∨ ∃ y ∈ rows, windowMask w x y = true ∧
        c = mkCand token x y ∧ pairQualifies x y := by
    intro x acc c hc
    unfold spreadAnchor at hc
    rcases considerFold_sub token x (rows.filter (windowMask w x)) acc c hc
      with h | h
    · exact Or.inl h
    · obtain ⟨other, ho, h2⟩ := h
      rw [List.mem_filter] at ho
      exact Or.inr ⟨other, ho.1, ho.2, h2⟩
  have main : ∀ (anchors : List Obs), (∀ x ∈ anchors, x ∈ rows) →
      ∀ acc, (∀ c ∈ acc, ∃ x ∈ rows, ∃ y ∈ rows, windowMask w x y = true ∧
        c = mkCand token x y ∧ pairQualifies x y) →
      ∀ c ∈ anchors.foldl (spreadAnchor w rows token) acc,
        ∃ x ∈ rows, ∃ y ∈ rows, windowMask w x y = true ∧
          c = mkCand token x y ∧ pairQualifies x y := by
    intro anchors
    induction anchors with
    | nil => intro _ acc hacc c hc; exact hacc c hc
    | cons x rest ih =>
      intro hsub acc hacc c hc
      refine ih (fun u hu => hsub u (List.mem_cons_of_mem x hu)) _ ?_ c hc
      intro d hd
      rcases anchor x acc d hd with h | h
      · exact hacc d h
      · obtain ⟨y, hy, h2⟩ := h
        exact ⟨x, hsub x (List.mem_cons_self x rest), y, hy, h2⟩
  exact main rows (fun x hx => hx) [] (by simp)

theorem considerOther_keyMem_mono (token : String) (row other : Obs)
    (acc : List Cand) (k1 k2 : ℚ) (h : keyMem k1 k2 acc) :
    keyMem k1 k2 (considerOther token row acc other) := by
  obtain ⟨c, hc, hk⟩ := h
  unfold considerOther
  simp only
  split_ifs
  all_goals first
    | exact ⟨c, hc, hk⟩
    | exact ⟨c, List.mem_append_left _ hc, hk⟩

theorem considerOther_keyMem_est (token : String) (row other : Obs)
    (acc : List Cand) (hq : pairQualifies row other) :
    keyMem (qmin row.timestamp other.timestamp)
      (qmax row.timestamp other.timestamp)
      (considerOther token row acc other) := by
  unfold considerOther
  simp only
  rw [if_pos hq.1, if_pos hq.2]
  split
  · rename_i h
    rw [List.any_eq_true] at h
    obtain ⟨c, hc, hdec⟩ := h
    rw [decide_eq_true_iff] at hdec
    exact ⟨c, hc, hdec.2.1, hdec.2.2⟩
  · exact ⟨mkCand token row other,
      List.mem_append_right _ (List.mem_singleton_self _), rfl, rfl⟩

theorem considerOther_scanInv (token : String) (row other : Obs)
    (acc : List Cand) (h : scanInv token acc) :
    scanInv token (considerOther token row acc other) := by
  unfold considerOther
  simp only
  split_ifs with h1 h2 h3
  · exact h
  · constructor
    · intro c hc
      rcases List.mem_append.mp hc with hc | hc
      · exact h.1 c hc
      · rw [List.mem_singleton] at hc; subst hc; rfl
    · rw [List.pairwise_append]
      refine ⟨h.2, List.pairwise_singleton _ _, ?_⟩
      intro c hc d hd
      rw [List.mem_singleton] at hd
      subst hd
      rw [Bool.not_eq_true, List.any_eq_false] at h3
      have hnot := h3 c hc
      rw [decide_eq_true_iff] at hnot
      by_contra hcon
      push_neg at hcon
      exact hnot ⟨h.1 c hc, hcon.1, hcon.2⟩
  · exact h
  · exact h

theorem spreadScan_scanInv (w : ℚ) (rows : List Obs) (token : String) :
    scanInv token (spreadScan w rows token) := by
  unfold spreadScan
  refine foldl_pred_mono (scanInv token) (spreadAnchor w rows token)
    (fun acc row h => ?_) rows [] ⟨by simp, List.Pairwise.nil⟩
  unfold spreadAnchor
  exact foldl_pred_mono (scanInv token) (considerOther token row)
    (fun acc2 o h2 => considerOther_scanInv token row o acc2 h2) _ acc h

theorem countP_key_le_one (k1 k2 : ℚ) (l : List Cand)
    (h : l.Pairwise fun c d =>
      c.arb_key_tmin ≠ d.arb_key_tmin ∨ c.arb_key_tmax ≠ d.arb_key_tmax) :
    l.countP (fun c =>
      decide (c.arb_key_tmin = k1 ∧ c.arb_key_tmax = k2)) ≤ 1 := by
  induction l with
  | nil => simp
  | cons c rest ih =>
    rcases List.pairwise_cons.mp h with ⟨hc, hrest⟩
    rw [List.countP_cons]
    by_cases hp : c.arb_key_tmin = k1 ∧ c.arb_key_tmax = k2
    · have h0 : rest.countP (fun d =>
          decide (d.arb_key_tmin = k1 ∧ d.arb_key_tmax = k2)) = 0 := by
        rw [List.countP_eq_zero]
        intro d hd
        have hcd := hc d hd
        rw [decide_eq_true_iff]
        rintro ⟨e1, e2⟩
        rcases hcd with h' | h'
        · exact h' (hp.1.trans e1.symm)
        · exact h' (hp.2.trans e2.symm)
      rw [h0, decide_eq_true hp]
      simp
    · rw [decide_eq_false hp]
      simpa using ih hrest

theorem ts_inj_of_pairwise (rows : List Obs)
    (hdist : rows.Pairwise fun x y =>
      x.idx ≠ y.idx ∧ x.timestamp ≠ y.timestamp)
    {x y : Obs} (hx : x ∈ rows) (hy : y ∈ rows)
    (h : x.timestamp = y.timestamp) : x = y := by
  by_contra hne
  exact (hdist.forall (fun a b hab => ⟨hab.1.symm, hab.2.symm⟩) hx hy hne).2 h

theorem pair_eq_of_qmin_qmax (p q r s : ℚ) (hmin : qmin p q = qmin r s)
    (hmax : qmax p q = qmax r s) :
    (p = r ∧ q = s) ∨ (p = s ∧ q = r) := by
  rw [qmin_eq_min p q, qmin_eq_min r s] at hmin
  rw [qmax_eq_max p q, qmax_eq_max r s] at hmax
  rcases le_total p q with h1 | h1 <;> rcases le_total r s with h2 | h2
  · rw [min_eq_left h1, min_eq_left h2] at hmin
    rw [max_eq_right h1, max_eq_right h2] at hmax
    exact Or.inl ⟨hmin, hmax⟩
  · rw [min_eq_left h1, min_eq_right h2] at hmin
    rw [max_eq_right h1, max_eq_left h2] at hmax
    exact Or.inr ⟨hmin, hmax⟩
  · rw [min_eq_right h1, min_eq_left h2] at hmin
    rw [max_eq_left h1, max_eq_right h2] at hmax
    exact Or.inr ⟨hmax, hmin⟩
  · rw [min_eq_right h1, min_eq_right h2] at hmin
    rw [max_eq_left h1, max_eq_left h2] at hmax
    exact Or.inl ⟨hmax, hmin⟩

theorem price_ne_of_spread (p q : ℚ) (hspr : 0.05 < (qmax p q - qmin p q) /
    qmin p q * 100) : p ≠ q := by
  intro he
  subst he
  rw [qmin, if_pos le_rfl, qmax, if_pos le_rfl, sub_self, zero_div,
    zero_mul] at hspr
  norm_num at hspr

/-- C7 (amended): for a per-token observation set whose rows carry pairwise
distinct indices and timestamps, every unordered pair within plus or minus
the window with strictly positive lower price and spread strictly above the
0.05% threshold is represented by exactly one candidate carrying the
(min ts, max ts) dedup key, and that candidate records the pair's min and
max prices with the lower-priced observation designated as the buy side. -/
theorem spreadScan_unique_candidate_of_distinct_timestamps
    (w : ℚ) (rows : List Obs) (token : String)
    (hdist : rows.Pairwise fun x y =>
      x.idx ≠ y.idx ∧ x.timestamp ≠ y.timestamp)
    (a b : Obs) (ha : a ∈ rows) (hb : b ∈ rows) (hab : a ≠ b)
    (hwin : qabs (a.timestamp - b.timestamp) ≤ w)
    (hq : pairQualifies a b)
    (hstrict : 0.05 < (qmax a.price_usd b.price_usd -
      qmin a.price_usd b.price_usd) / qmin a.price_usd b.price_usd * 100) :
    ((spreadScan w rows token).countP (fun c =>
        decide (c.arb_key_tmin = qmin a.timestamp b.timestamp ∧
          c.arb_key_tmax = qmax a.timestamp b.timestamp)) = 1) ∧
    ∀ c ∈ spreadScan w rows token,
      c.arb_key_tmin = qmin a.timestamp b.timestamp →
      c.arb_key_tmax = qmax a.timestamp b.timestamp →
      c.min_price = qmin a.price_usd b.price_usd ∧
      c.max_price = qmax a.price_usd b.price_usd ∧
      c.buy_timestamp =
        (if a.price_usd < b.price_usd then a.timestamp else b.timestamp) ∧
      c.buy_source =
        (if a.price_usd < b.price_usd then a.source else b.source) ∧
      c.sell_timestamp =
        (if a.price_usd < b.price_usd then b.timestamp else a.timestamp) ∧
      c.sell_source =
        (if a.price_usd < b.price_usd then b.source else a.source) := by
  have hsym : ∀ x y : Obs, (x.idx ≠ y.idx ∧ x.timestamp ≠ y.timestamp) →
      (y.idx ≠ x.idx ∧ y.timestamp ≠ x.timestamp) :=
    fun x y hxy => ⟨hxy.1.symm, hxy.2.symm⟩
  have hidx : b.idx ≠ a.idx := (hdist.forall hsym ha hb hab).1.symm
  have hmask : windowMask w a b = true := by
    rw [windowMask, decide_eq_true_iff]
    rw [qabs_eq_abs, abs_le] at hwin
    exact ⟨by linarith [hwin.1], by linarith [hwin.2], hidx⟩
  have hinv := spreadScan_scanInv w rows token
  have hkey : keyMem (qmin a.timestamp b.timestamp)
      (qmax a.timestamp b.timestamp) (spreadScan w rows token) := by
    unfold spreadScan
    refine foldl_pred_of_mem _ (spreadAnchor w rows token) a
      (fun acc x h => ?_) (fun acc => ?_) rows [] ha
    · unfold spreadAnchor
      exact foldl_pred_mono _ (considerOther token x)
        (fun acc2 o h2 => considerOther_keyMem_mono token x o acc2 _ _ h2)
        _ acc h
    · unfold spreadAnchor
      refine foldl_pred_of_mem _ (considerOther token a) b
        (fun acc2 o h2 => considerOther_keyMem_mono token a o acc2 _ _ h2)
        (fun acc2 => considerOther_keyMem_est token a b acc2 hq)
        _ acc (List.mem_filter.mpr ⟨hb, hmask⟩)
  constructor
  · have hle := countP_key_le_one (qmin a.timestamp b.timestamp)
      (qmax a.timestamp b.timestamp) _ hinv.2
    have hpos : 0 < (spreadScan w rows token).countP (fun c =>
        decide (c.arb_key_tmin = qmin a.timestamp b.timestamp ∧
          c.arb_key_tmax = qmax a.timestamp b.timestamp)) := by
      rw [List.countP_pos_iff]
      obtain ⟨c, hc, h1, h2⟩ := hkey
      exact ⟨c, hc, decide_eq_true ⟨h1, h2⟩⟩
    omega
  · intro c hc e1 e2
    obtain ⟨x, hx, y, hy, hmaskxy, hceq, hqxy⟩ :=
      spreadScan_sub w rows token c hc
    subst hceq
    have hk1 : qmin x.timestamp y.timestamp = qmin a.timestamp b.timestamp :=
      e1
    have hk2 : qmax x.timestamp y.timestamp = qmax a.timestamp b.timestamp :=
      e2
    have hne : a.price_usd ≠ b.price_usd := price_ne_of_spread _ _ hstrict
    rcases pair_eq_of_qmin_qmax _ _ _ _ hk1 hk2 with ⟨hxa, hyb⟩ | ⟨hxb, hya⟩
    · have hxa' : x = a := ts_inj_of_pairwise rows hdist hx ha hxa
      have hyb' : y = b := ts_inj_of_pairwise rows hdist hy hb hyb
      subst hxa'
      subst hyb'
      exact ⟨rfl, rfl, apply_ite Obs.timestamp _ x y, apply_ite Obs.source _ x y,
        apply_ite Obs.timestamp _ y x, apply_ite Obs.source _ y x⟩
    · have hxb' : x = b := ts_inj_of_pairwise rows hdist hx hb hxb
      have hya' : y = a := ts_inj_of_pairwise rows hdist hy ha hya
      subst hxb'
      subst hya'
      refine ⟨qmin_comm _ _, qmax_comm _ _, ?_, ?_, ?_, ?_⟩
      · show (if x.price_usd < y.price_usd then x else y).timestamp =
          if y.price_usd < x.price_usd then y.timestamp else x.timestamp
        rcases hne.lt_or_lt with hlt | hlt
        · rw [if_neg (not_lt.mpr hlt.le), if_pos hlt]
        · rw [if_pos hlt, if_neg (not_lt.mpr hlt.le)]
      · show (if x.price_usd < y.price_usd then x else y).source =
          if y.price_usd < x.price_usd then y.source else x.source
        rcases hne.lt_or_lt with hlt | hlt
        · rw [if_neg (not_lt.mpr hlt.le), if_pos hlt]
        · rw [if_pos hlt, if_neg (not_lt.mpr hlt.le)]
      · show (if x.price_usd < y.price_usd then y else x).timestamp =
          if y.price_usd < x.price_usd then x.timestamp else y.timestamp
        rcases hne.lt_or_lt with hlt | hlt
        · rw [if_neg (not_lt.mpr hlt.le), if_pos hlt]
        · rw [if_pos hlt, if_neg (not_lt.mpr hlt.le)]
      · show (if x.price_usd < y.price_usd then y else x).source =
          if y.price_usd < x.price_usd then x.source else y.source
        rcases hne.lt_or_lt with hlt | hlt
        · rw [if_neg (not_lt.mpr hlt.le), if_pos hlt]
        · rw [if_pos hlt, if_neg (not_lt.mpr hlt.le)]

unseal Rat.add Rat.mul Rat.sub Rat.inv Rat.ofScientific in
/-- C7 counterexample: three observations of one token at prices 100, 102 and
110 where the second and third share timestamp 20.  The pair (100, 110) lies
within the window and its 10% spread exceeds the 0.05% threshold, yet no
candidate records it: its dedup key (10, 20) collides with the key of the
pair (100, 102), so the scan emits only one candidate for that key and it
carries max_price 102, refuting "exactly one candidate per qualifying
pair". -/
theorem spreadScan_key_collision_counterexample :
    ((0.05 : ℚ) < ((110 : ℚ) - 100) / 100 * 100) ∧
    qabs ((10 : ℚ) - 20) ≤ 30 ∧
    (spreadScan 30 collideRows "UNI").countP (fun c =>
      decide (c.arb_key_tmin = 10 ∧ c.arb_key_tmax = 20)) = 1 ∧
    (spreadScan 30 collideRows "UNI").countP (fun c =>
      decide (c.min_price = 100 ∧ c.max_price = 110)) = 0 := by
  decide

unseal Rat.add Rat.mul Rat.sub Rat.inv Rat.ofScientific in
/-- C7 witness: the 100 / 100.06 / 103 scenario with distinct timestamps.
The hypotheses of the amended claim hold for the pair (100, 100.06), the
theorem yields exactly one candidate with its key, and the whole scan
reports all three pairwise spreads once each. -/
theorem spreadScan_unique_candidate_witness :
    (scenarioRows.Pairwise (fun x y =>
        x.idx ≠ y.idx ∧ x.timestamp ≠ y.timestamp) ∧
      scenarioObs1 ∈ scenarioRows ∧ scenarioObs2 ∈ scenarioRows ∧
      scenarioObs1 ≠ scenarioObs2 ∧
      qabs (scenarioObs1.timestamp - scenarioObs2.timestamp) ≤ 30 ∧
      pairQualifies scenarioObs1 scenarioObs2 ∧
      (0.05 : ℚ) < (qmax scenarioObs1.price_usd scenarioObs2.price_usd -
        qmin scenarioObs1.price_usd scenarioObs2.price_usd) /
        qmin scenarioObs1.price_usd scenarioObs2.price_usd * 100) ∧
    ((spreadScan 30 scenarioRows "UNI").countP (fun c =>
        decide (c.arb_key_tmin =
            qmin scenarioObs1.timestamp scenarioObs2.timestamp ∧
          c.arb_key_tmax =
            qmax scenarioObs1.timestamp scenarioObs2.timestamp)) = 1) ∧
    (spreadScan 30 scenarioRows "UNI").map (fun c =>
        (c.arb_key_tmin, c.arb_key_tmax, c.min_price, c.max_price)) =
      [(10, 20, 100, 100.06), (10, 25, 100, 103), (20, 25, 100.06, 103)] :=
  ⟨by decide,
   (spreadScan_unique_candidate_of_distinct_timestamps 30 scenarioRows "UNI"
      (by decide) scenarioObs1 scenarioObs2 (by decide) (by decide)
      (by decide) (by decide) (by decide) (by decide)).1,
   by decide⟩

/-! ### Price-system lemmas and claim theorems -/

theorem determineTokenOrder_fst_true (tokenAddress usdcAddress : String)
    (h : pyStrLt (pyLower tokenAddress) (pyLower usdcAddress)) :
    (determineTokenOrder tokenAddress usdcAddress).1 = true := by
  unfold determineTokenOrder
  simp only
  rw [if_pos h]

theorem determineTokenOrder_fst_false (tokenAddress usdcAddress : String)
    (h : ¬ pyStrLt (pyLower tokenAddress) (pyLower usdcAddress)) :
    (determineTokenOrder tokenAddress usdcAddress).1 = false := by
  unfold determineTokenOrder
  simp only
  rw [if_neg h]

/-- C2: whenever the Pool Price Normalizer emits an observation, the price
it carries is ratio * 10^(tokenDecimals - usdcDecimals) with
ratio = (raw / 2^96)^2 when the token's (lowercased) contract address is
lexicographically smaller than the stable-asset's address, and
(1 / ratio) * 10^(tokenDecimals - usdcDecimals) otherwise; and the
observation carries bid = price * (1 - feeRate) and
ask = price * (1 + feeRate) with feeRate the resolved pool fee tier over
10^6 (bid, ask and feeRate stored in the market_cap, volume_24h and
price_change_24h slots as in the source). -/
theorem fetchUniswapPrice_price_formula
    (chainName tokenSymbol tokenAddress usdcAddress : String)
    (poolFee sqrtPriceX96 tokenDecimals usdcDecimals : ℕ) (now : ℚ)
    (pd : PriceData)
    (h : fetchUniswapPriceCore chainName tokenSymbol tokenAddress usdcAddress
      poolFee sqrtPriceX96 tokenDecimals usdcDecimals now = some pd) :
    pd.price = (if pyStrLt (pyLower tokenAddress) (pyLower usdcAddress) then
        ((sqrtPriceX96 : ℚ) / 2 ^ 96) ^ 2 *
          (10 : ℚ) ^ ((tokenDecimals : ℤ) - (usdcDecimals : ℤ))
      else (1 / ((sqrtPriceX96 : ℚ) / 2 ^ 96) ^ 2) *
          (10 : ℚ) ^ ((tokenDecimals : ℤ) - (usdcDecimals : ℤ))) ∧
    pd.market_cap = some (pd.price * (1 - (poolFee : ℚ) / 1000000)) ∧
    pd.volume_24h = some (pd.price * (1 + (poolFee : ℚ) / 1000000)) ∧
    pd.price_change_24h = some ((poolFee : ℚ) / 1000000) := by
  unfold fetchUniswapPriceCore at h
  simp only at h
  by_cases hord : pyStrLt (pyLower tokenAddress) (pyLower usdcAddress)
  · rw [determineTokenOrder_fst_true _ _ hord] at h
    simp only [if_true] at h
    by_cases hb : priceWhenToken0 sqrtPriceX96 tokenDecimals usdcDecimals >
        10 ^ 10 ∨ priceWhenToken0 sqrtPriceX96 tokenDecimals usdcDecimals <
        PY_FLOAT_1E_MINUS_10
    · rw [if_pos hb] at h
      exact absurd h (by simp)
    · rw [if_neg hb, Option.some_inj] at h
      subst h
      refine ⟨?_, rfl, rfl, rfl⟩
      show priceWhenToken0 sqrtPriceX96 tokenDecimals usdcDecimals = _
      rw [if_pos hord, priceWhenToken0]
      ring
  · rw [determineTokenOrder_fst_false _ _ hord] at h
    simp only [Bool.false_eq_true, if_false] at h
    by_cases hb : priceWhenToken1 sqrtPriceX96 tokenDecimals usdcDecimals >
        10 ^ 10 ∨ priceWhenToken1 sqrtPriceX96 tokenDecimals usdcDecimals <
        PY_FLOAT_1E_MINUS_10
    · rw [if_pos hb] at h
      exact absurd h (by simp)
    · rw [if_neg hb, Option.some_inj] at h
      subst h
      refine ⟨?_, rfl, rfl, rfl⟩
      show priceWhenToken1 sqrtPriceX96 tokenDecimals usdcDecimals = _
      rw [if_neg hord, priceWhenToken1]
      ring

set_option maxRecDepth 8000 in
unseal Rat.add Rat.mul Rat.sub Rat.inv Rat.ofScientific in
/-- C2 witness: a pool read with sqrtPriceX96 = 2^96 (ratio 1), token
decimals 8, stable decimals 6, token address below the stable address and
fee tier 3000 yields price 100, bid 99.7, ask 100.3 and fee rate 0.003. -/
theorem fetchUniswapPrice_price_formula_witness :
    fetchUniswapPriceCore "ethereum" "WBTC" "0x1" "0x2" 3000 (2 ^ 96) 8 6 0 =
      some uniswapWitnessPD ∧
    (uniswapWitnessPD.price = (if pyStrLt (pyLower "0x1") (pyLower "0x2") then
        (((2 ^ 96 : ℕ) : ℚ) / 2 ^ 96) ^ 2 *
          (10 : ℚ) ^ (((8 : ℕ) : ℤ) - ((6 : ℕ) : ℤ))
      else (1 / (((2 ^ 96 : ℕ) : ℚ) / 2 ^ 96) ^ 2) *
          (10 : ℚ) ^ (((8 : ℕ) : ℤ) - ((6 : ℕ) : ℤ))) ∧
      uniswapWitnessPD.market_cap =
        some (uniswapWitnessPD.price * (1 - ((3000 : ℕ) : ℚ) / 1000000)) ∧
      uniswapWitnessPD.volume_24h =
        some (uniswapWitnessPD.price * (1 + ((3000 : ℕ) : ℚ) / 1000000)) ∧
      uniswapWitnessPD.price_change_24h =
        some (((3000 : ℕ) : ℚ) / 1000000)) :=
  ⟨by decide,
   fetchUniswapPrice_price_formula "ethereum" "WBTC" "0x1" "0x2" 3000
     (2 ^ 96) 8 6 0 uniswapWitnessPD (by decide)⟩

/-- C8: for every strictly positive raw sqrt-price state value and fixed
(tokenDecimals, usdcDecimals) pair, the price derived with the token in the
lower-address slot and the price derived with it in the higher-address slot,
computed from the same underlying ratio, multiply to the square of the
decimal-exponent scaling factor 10^(tokenDecimals - usdcDecimals). -/
theorem pool_price_slots_reciprocal (sqrtPriceX96 tokenDecimals
    usdcDecimals : ℕ) (h : 0 < sqrtPriceX96) :
    priceWhenToken0 sqrtPriceX96 tokenDecimals usdcDecimals *
      priceWhenToken1 sqrtPriceX96 tokenDecimals usdcDecimals =
      ((10 : ℚ) ^ ((tokenDecimals : ℤ) - (usdcDecimals : ℤ))) ^ 2 := by
  have hs : ((sqrtPriceX96 : ℚ) / 2 ^ 96) ≠ 0 := by
    apply div_ne_zero
    · exact_mod_cast h.ne'
    · norm_num
  rw [priceWhenToken0, priceWhenToken1]
  field_simp
  ring

set_option maxRecDepth 8000 in
unseal Rat.add Rat.mul Rat.sub Rat.inv Rat.ofScientific in
/-- C8 witness: at sqrtPriceX96 = 2^96 with decimals 18 and 6 the two slot
prices multiply to (10^12)^2. -/
theorem pool_price_slots_reciprocal_witness :
    0 < 2 ^ 96 ∧
    priceWhenToken0 (2 ^ 96) 18 6 * priceWhenToken1 (2 ^ 96) 18 6 =
      ((10 : ℚ) ^ (((18 : ℕ) : ℤ) - ((6 : ℕ) : ℤ))) ^ 2 :=
  ⟨by decide, pool_price_slots_reciprocal (2 ^ 96) 18 6 (by decide)⟩

set_option maxRecDepth 8000 in
unseal Rat.add Rat.mul Rat.sub Rat.inv Rat.ofScientific in
/-- C4 counterexample: a Binance bulk response reporting UNIUSDC at 10^11
USD — far outside [1e-10, 1e10] — flows unfiltered through the Binance
adapter into the Aggregator's per-token output, so the out-of-bounds price
does appear there, refuting the claim for the centralized venue family. -/
theorem aggregator_admits_out_of_bounds_cex_price :
    (lookupGrouped (getAllPrices
        (fetchAllBinancePrices (fun _ => Outcome.ok [hugeUNITicker])
          (fun _ => none) 0) [] []) "UNI").map (fun pd => pd.price) =
      [10 ^ 11] ∧
    ((10 : ℚ) ^ 10 < 10 ^ 11) := by
  decide

theorem lookupGrouped_insertGrouped (acc : List (String × List PriceData))
    (q : PriceData) (token : String) :
    ∀ pd ∈ lookupGrouped (insertGrouped acc q) token,
      pd ∈ lookupGrouped acc token ∨ pd = q := by
  induction acc with
  | nil =>
    intro pd hpd
    unfold insertGrouped lookupGrouped at hpd
    split_ifs at hpd
    · rw [List.mem_singleton] at hpd
      exact Or.inr hpd
    · exact absurd hpd (List.not_mem_nil pd)
  | cons entry rest ih =>
    intro pd hpd
    obtain ⟨t, l⟩ := entry
    unfold insertGrouped at hpd
    split_ifs at hpd with ht
    · unfold lookupGrouped at hpd ⊢
      split_ifs at hpd ⊢ with htok
      · rcases List.mem_append.mp hpd with h | h
        · exact Or.inl h
        · exact Or.inr (List.mem_singleton.mp h)
      · exact Or.inl hpd
    · unfold lookupGrouped at hpd ⊢
      split_ifs at hpd ⊢ with htok
      · exact Or.inl hpd
      · exact ih pd hpd

theorem groupFold_mem (prices : List PriceData) :
    ∀ (acc : List (String × List PriceData)) (token : String)
      (pd : PriceData),
      pd ∈ lookupGrouped (prices.foldl insertGrouped acc) token →
      pd ∈ lookupGrouped acc token ∨ pd ∈ prices := by
  induction prices with
  | nil => intro acc token pd h; exact Or.inl h
  | cons q rest ih =>
    intro acc token pd h
    rcases ih (insertGrouped acc q) token pd h with h2 | h2
    · rcases lookupGrouped_insertGrouped acc q token pd h2 with h3 | h3
      · exact Or.inl h3
      · exact Or.inr (h3 ▸ List.mem_cons_self q rest)
    · exact Or.inr (List.mem_cons_of_mem q h2)

/-- C4 (amended): the [1e-10, 1e10] bounds filter lives in the on-chain pool
normalizer only — every observation it emits has price inside the bounds and
strictly positive — while the Aggregator itself adds nothing: every
observation in its per-token grouped output comes from some adapter's input
list (so centralized and derivative observations, which no adapter
bounds-checks, enter the Aggregator unfiltered). -/
theorem uniswap_bounds_and_aggregator_membership :
    (∀ (chainName tokenSymbol tokenAddress usdcAddress : String)
        (poolFee sqrtPriceX96 tokenDecimals usdcDecimals : ℕ) (now : ℚ)
        (pd : PriceData),
      fetchUniswapPriceCore chainName tokenSymbol tokenAddress usdcAddress
          poolFee sqrtPriceX96 tokenDecimals usdcDecimals now = some pd →
      (10 : ℚ) ^ (-(10 : ℤ)) ≤ pd.price ∧ pd.price ≤ (10 : ℚ) ^ (10 : ℕ) ∧
        0 < pd.price) ∧
    (∀ (prices : List PriceData) (token : String) (pd : PriceData),
      pd ∈ lookupGrouped (groupByToken prices) token → pd ∈ prices) := by
  constructor
  · intro chainName tokenSymbol tokenAddress usdcAddress poolFee sqrtPriceX96
      tokenDecimals usdcDecimals now pd h
    have hPY : (10 : ℚ) ^ (-(10 : ℤ)) < PY_FLOAT_1E_MINUS_10 := by
      rw [PY_FLOAT_1E_MINUS_10, zpow_neg]
      rw [inv_lt_iff_one_lt_mul₀ (by positivity)]
      norm_num
    unfold fetchUniswapPriceCore at h
    simp only at h
    split_ifs at h with hord hb hb2
    all_goals
      first
        | exact Option.noConfusion h
        | (rw [Option.some_inj] at h
           subst h
           first
             | (push_neg at hb
                exact ⟨le_of_lt (lt_of_lt_of_le hPY hb.2), hb.1,
                  lt_of_lt_of_le (lt_trans (by positivity) hPY) hb.2⟩)
             | (push_neg at hb2
                exact ⟨le_of_lt (lt_of_lt_of_le hPY hb2.2), hb2.1,
                  lt_of_lt_of_le (lt_trans (by positivity) hPY) hb2.2⟩))
  · intro prices token pd h
    rcases groupFold_mem prices [] token pd h with h2 | h2
    · exact absurd h2 (List.not_mem_nil pd)
    · exact h2

set_option maxRecDepth 8000 in
unseal Rat.add Rat.mul Rat.sub Rat.inv Rat.ofScientific in
/-- C4 witness: the pool-normalizer bounds applied to a concrete emitted
observation (price 100, fee tier 500), and aggregator membership applied to
a concrete grouped singleton. -/
theorem uniswap_bounds_and_aggregator_membership_witness :
    ((10 : ℚ) ^ (-(10 : ℤ)) ≤ 100 ∧ (100 : ℚ) ≤ (10 : ℚ) ^ (10 : ℕ) ∧
      (0 : ℚ) < 100) ∧
    mkBinancePriceData "UNI" 5 0 ∈ [mkBinancePriceData "UNI" 5 0] :=
  ⟨uniswap_bounds_and_aggregator_membership.1 "ethereum" "WBTC" "0x1" "0x2"
     500 (2 ^ 96) 8 6 0 boundsWitnessPD (by decide),
   uniswap_bounds_and_aggregator_membership.2 [mkBinancePriceData "UNI" 5 0]
     "UNI" (mkBinancePriceData "UNI" 5 0) (by decide)⟩

unseal Rat.add Rat.mul Rat.sub Rat.inv Rat.ofScientific in
/-- C10 counterexample: a bulk Binance batch holding one well-formed UNI
record (which alone parses to a price) and one record with a missing symbol
field.  The malformed record does not merely drop itself: it aborts the
parse of every attempt, and with the per-token fallback also failing the
caller receives the empty list instead of the rest of the batch. -/
theorem binance_bulk_drops_batch_on_malformed_record :
    parseBinanceBatch 0 [goodUNITicker] =
      .ok [mkBinancePriceData "UNI" 10 0] ∧
    fetchAllBinancePrices (fun _ => Outcome.ok [goodUNITicker,
      malformedTicker]) (fun _ => none) 0 = [] := by
  decide

theorem binanceGo_all_fail (attempts : ℕ → Outcome)
    (indiv : String → Option ℚ) (now : ℚ) :
    ∀ idxs : List ℕ,
      (∀ i ∈ idxs, ∀ batch, attempts i = Outcome.ok batch →
        parseBinanceBatch now batch = .error ()) →
      binanceGo attempts indiv now idxs =
        binanceIndividualFallback indiv now := by
  intro idxs
  induction idxs with
  | nil => intro _; rfl
  | cons i rest ih =>
    intro h
    have ih2 := ih fun j hj => h j (List.mem_cons_of_mem i hj)
    cases ha : attempts i with
    | ok batch =>
      have hp := h i (List.mem_cons_self i rest) batch ha
      simp only [binanceGo, ha, hp]
      exact ih2
    | rateLimited => simp only [binanceGo, ha]; exact ih2
    | timeout => simp only [binanceGo, ha]; exact ih2
    | failed => simp only [binanceGo, ha]; exact ih2
    | otherStatus => simp only [binanceGo, ha]; exact ih2

/-- C10 (amended): the Binance bulk adapter returns the first attempt's
fully parsed batch when parsing succeeds; when every attempt within the
three-attempt budget fails (rate limit, timeout, exception, other status, or
a malformed record aborting the batch parse) it falls back to per-instrument
fetches over the first five tokens, always returning a list; the Bybit
adapter is per-instrument from the start, and a successfully fetched
instrument always appears in its output no matter how every other instrument
fails. -/
theorem adapters_retry_fallback_and_isolation :
    (∀ (attempts : ℕ → Outcome) (indiv : String → Option ℚ) (now : ℚ),
      (∀ i, i < 3 → ∀ batch, attempts i = Outcome.ok batch →
        parseBinanceBatch now batch = .error ()) →
      fetchAllBinancePrices attempts indiv now =
        binanceIndividualFallback indiv now) ∧
    (∀ (attempts : ℕ → Outcome) (indiv : String → Option ℚ) (now : ℚ)
        (batch : List Ticker) (results : List PriceData),
      attempts 0 = Outcome.ok batch →
      parseBinanceBatch now batch = .ok results →
      fetchAllBinancePrices attempts indiv now = results) ∧
    (∀ (resp : String → Option BybitTicker) (now : ℚ) (symbol : String)
        (pd : PriceData), symbol ∈ bybitSymbols →
      bybitFetchOne resp now symbol = some pd →
      pd ∈ fetchAllBybitPrices resp now) := by
  refine ⟨?_, ?_, ?_⟩
  · intro attempts indiv now h
    refine binanceGo_all_fail attempts indiv now [0, 1, 2] ?_
    intro i hi
    refine h i ?_
    simp at hi
    rcases hi with rfl | rfl | rfl <;> omega
  · intro attempts indiv now batch results ha hp
    show binanceGo attempts indiv now [0, 1, 2] = results
    simp only [binanceGo, ha, hp]
  · intro resp now symbol pd hsym hone
    unfold fetchAllBybitPrices
    exact List.mem_filterMap.mpr ⟨symbol, hsym, hone⟩

unseal Rat.add Rat.mul Rat.sub Rat.inv Rat.ofScientific in
/-- C10 witness: the three parts of the amended claim at concrete inputs —
all attempts rate-limited falls back to the first-five individual fetches;
a clean first attempt returns its parsed batch; a successful Bybit
instrument appears in the output although every other instrument fails. -/
theorem adapters_retry_fallback_and_isolation_witness :
    (parseBinanceBatch 0 [goodUNITicker] =
        .ok [mkBinancePriceData "UNI" 10 0] ∧
      "ETHUSDT" ∈ bybitSymbols ∧
      bybitFetchOne witnessBybitResp 0 "ETHUSDT" =
        some (mkBybitPriceData "WETH" 7 0) ∧
      binanceIndividualFallback witnessIndiv 0 =
        [mkBinancePriceData "WETH" 5 0]) ∧
    fetchAllBinancePrices (fun _ => Outcome.rateLimited) witnessIndiv 0 =
      binanceIndividualFallback witnessIndiv 0 ∧
    fetchAllBinancePrices (fun _ => Outcome.ok [goodUNITicker])
      witnessIndiv 0 = [mkBinancePriceData "UNI" 10 0] ∧
    mkBybitPriceData "WETH" 7 0 ∈ fetchAllBybitPrices witnessBybitResp 0 :=
  ⟨⟨by decide, by decide, by decide, by decide⟩,
   adapters_retry_fallback_and_isolation.1 (fun _ => Outcome.rateLimited)
     witnessIndiv 0 (fun i hi batch hb => Outcome.noConfusion hb),
   adapters_retry_fallback_and_isolation.2.1 (fun _ => Outcome.ok
     [goodUNITicker]) witnessIndiv 0 [goodUNITicker]
     [mkBinancePriceData "UNI" 10 0] rfl (by decide),
   adapters_retry_fallback_and_isolation.2.2 witnessBybitResp 0 "ETHUSDT"
     (mkBybitPriceData "WETH" 7 0) (by decide) (by decide)⟩

end Bittrade